import Mathlib

/-!
Verification of the session-management core of the `sixtyfps` language
server (`src/tools/lsp/main.rs`): the document cache's line-offset index,
the position-to-token resolver, the diagnostics translator and publisher,
the execute-command dispatch path of the request dispatcher, and the
didChange notification handler.

Modelling conventions:
* Rust `u32` arithmetic is modelled on `Nat` with explicit reduction
  `% 4294967296`; `as u32` casts truncate the same way.  Release-mode
  (wrapping) overflow semantics are used throughout.
* Text is modelled as `List Char`; `str::split('\n')` is `splitOnNl`.
* Fallible code is modelled with `Option`/`Except`; a Rust `unwrap`
  panic is modelled as the `none` outcome of the enclosing handler.
* External collaborators (the rowan syntax tree, the compiler's
  `TypeLoader`, the JSON-RPC transport) are represented by the data the
  core actually consumes: a document's token list, its compiled text
  range, the compile's diagnostics batch, and the list of messages sent.
-/

/-- `2^32`: modulus of Rust `u32` arithmetic. -/
def U32MOD : Nat := 4294967296

/-- `content.split('\n')` from `newline_offsets_from_content`
(src/tools/lsp/main.rs:55): the segments of `content` separated by
newline characters, including empty leading/trailing segments, so the
result is never empty. -/
def splitOnNl : List Char → List (List Char)
  | [] => [[]]
  | c :: rest =>
    if c = '\n' then [] :: splitOnNl rest
    else
      match splitOnNl rest with
      | [] => [[c]]
      | l :: ls => (c :: l) :: ls

/-- The `map` with the mutable `ln_offs : u32` accumulator in
`newline_offsets_from_content` (src/tools/lsp/main.rs:53-61): emit the
current offset for each line, then advance it by
`line.len() as u32 + 1` in wrapping `u32` arithmetic. -/
def newlineOffsetsAux : List (List Char) → Nat → List Nat
  | [], _ => []
  | line :: rest, lnOffs =>
    lnOffs :: newlineOffsetsAux rest ((lnOffs + (line.length % U32MOD + 1) % U32MOD) % U32MOD)

/-- `DocumentCache::newline_offsets_from_content`
(src/tools/lsp/main.rs:52-62). -/
def newline_offsets_from_content (content : List Char) : List Nat :=
  newlineOffsetsAux (splitOnNl content) 0

/-- Number of lines of a text, a trailing empty line after a final
newline counting as its own entry (the spec's `count_of_lines`). -/
def countLines (content : List Char) : Nat :=
  content.count '\n' + 1

/-- Sum of `line.len() + 1` over a list of lines (exact, un-wrapped). -/
def totalW : List (List Char) → Nat
  | [] => 0
  | l :: ls => (l.length + 1) + totalW ls

theorem splitOnNl_ne_nil (cs : List Char) : splitOnNl cs ≠ [] := by
  cases cs with
  | nil => simp [splitOnNl]
  | cons c rest =>
    simp only [splitOnNl]
    split
    · simp
    · split <;> simp

theorem totalW_splitOnNl (cs : List Char) : totalW (splitOnNl cs) = cs.length + 1 := by
  induction cs with
  | nil => simp [splitOnNl, totalW]
  | cons c rest ih =>
    simp only [splitOnNl]
    split
    · simp only [totalW, List.length_nil, List.length_cons, ih]
      omega
    · cases h : splitOnNl rest with
      | nil => exact absurd h (splitOnNl_ne_nil rest)
      | cons l ls =>
        rw [h] at ih
        simp only [totalW, List.length_cons] at ih ⊢
        omega

theorem length_splitOnNl (cs : List Char) :
    (splitOnNl cs).length = cs.count '\n' + 1 := by
  induction cs with
  | nil => simp [splitOnNl]
  | cons c rest ih =>
    simp only [splitOnNl]
    split
    · rename_i hc
      simp [List.count_cons, hc, ih]
    · rename_i hc
      cases h : splitOnNl rest with
      | nil => exact absurd h (splitOnNl_ne_nil rest)
      | cons l ls =>
        rw [h] at ih
        simp only [List.length_cons] at ih ⊢
        simp [List.count_cons, hc, ih]

theorem length_newlineOffsetsAux (ls : List (List Char)) (s : Nat) :
    (newlineOffsetsAux ls s).length = ls.length := by
  induction ls generalizing s with
  | nil => rfl
  | cons l rest ih => simp [newlineOffsetsAux, ih]

theorem totalW_pos (l : List Char) (ls : List (List Char)) : 0 < totalW (l :: ls) := by
  simp only [totalW]; omega

theorem newlineOffsetsAux_cons (line : List Char) (rest : List (List Char)) (s : Nat) :
    newlineOffsetsAux (line :: rest) s
      = s :: newlineOffsetsAux rest ((s + (line.length % U32MOD + 1) % U32MOD) % U32MOD) :=
  rfl

theorem chain_newlineOffsetsAux (ls : List (List Char)) (s : Nat)
    (hb : s + totalW ls ≤ U32MOD) :
    List.Chain' (· < ·) (newlineOffsetsAux ls s) := by
  induction ls generalizing s with
  | nil => simp [newlineOffsetsAux]
  | cons line rest ih =>
    cases rest with
    | nil => simp [newlineOffsetsAux]
    | cons x xs =>
      have hpos : 0 < totalW (x :: xs) := totalW_pos x xs
      have htx : totalW (x :: xs) = (x.length + 1) + totalW xs := rfl
      simp only [totalW] at hb
      have hlen : line.length % U32MOD = line.length :=
        Nat.mod_eq_of_lt (by omega)
      have hw : (line.length % U32MOD + 1) % U32MOD = line.length + 1 := by
        rw [hlen]
        exact Nat.mod_eq_of_lt (by omega)
      have hs : (s + (line.length % U32MOD + 1) % U32MOD) % U32MOD
          = s + (line.length + 1) := by
        rw [hw]
        exact Nat.mod_eq_of_lt (by omega)
      rw [newlineOffsetsAux_cons, hs, newlineOffsetsAux_cons]
      refine List.Chain'.cons (by omega) ?_
      rw [← newlineOffsetsAux_cons]
      exact ih (s + (line.length + 1)) (by omega)

theorem splitOnNl_replicate_concat (n : Nat) :
    splitOnNl (List.replicate n 'a' ++ ['\n']) = [List.replicate n 'a', []] := by
  induction n with
  | zero => simp [splitOnNl]
  | succ m ih =>
    rw [List.replicate_succ, List.cons_append]
    simp only [splitOnNl]
    rw [if_neg (by decide), ih]

/-- The strictly-increasing shape of the line-offset table, stated over
the concrete function. -/
theorem newline_offsets_shape (content : List Char) (hb : content.length < U32MOD) :
    (newline_offsets_from_content content).length = countLines content
    ∧ List.Chain' (· < ·) (newline_offsets_from_content content)
    ∧ (newline_offsets_from_content content).head? = some 0 := by
  refine ⟨?_, ?_, ?_⟩
  · rw [newline_offsets_from_content, length_newlineOffsetsAux, length_splitOnNl]
    rfl
  · apply chain_newlineOffsetsAux
    rw [totalW_splitOnNl]
    omega
  · rw [newline_offsets_from_content]
    cases h : splitOnNl content with
    | nil => exact absurd h (splitOnNl_ne_nil content)
    | cons l ls => simp [newlineOffsetsAux]

/-! ## Syntax tokens and the position-to-token resolver -/

/-- The token kinds that `token_descr`'s tie-break match distinguishes
(src/tools/lsp/main.rs:361-374), plus representative other kinds. -/
inductive SyntaxKind where
  | Identifier
  | Dot
  | Whitespace
  | Comment
  | LBrace
  | RBrace
  | Other
deriving DecidableEq, Repr

/-- Which of the two boundary tokens the resolver keeps. -/
inductive Side where
  | left
  | right
deriving DecidableEq, Repr

/-- The tie-break `match (l.kind(), r.kind())` of `token_descr`
(src/tools/lsp/main.rs:361-374), arm for arm, returning which side's
token is selected. -/
def pickSide (l r : SyntaxKind) : Side :=
  match l, r with
  | SyntaxKind.Identifier, _ => Side.left
  | _, SyntaxKind.Identifier => Side.right
  | SyntaxKind.Dot, _ => Side.left
  | _, SyntaxKind.Dot => Side.right
  | SyntaxKind.Whitespace, _ => Side.right
  | SyntaxKind.Comment, _ => Side.right
  | _, SyntaxKind.Whitespace => Side.left
  | _, SyntaxKind.Comment => Side.left
  | _, _ => Side.left

/-- A kind the precedence rule treats as ignorable filler. -/
def isWsOrComment (k : SyntaxKind) : Bool :=
  decide (k = SyntaxKind.Whitespace) || decide (k = SyntaxKind.Comment)

/-- Modelled from the claim's words (refinement comparison only): the
ordered precedence exactly as the spec states it — identifier over any
other kind, else dot over any other kind, else the side that is not
whitespace/comment over a whitespace-or-comment side, else the left
token. -/
def specPickClaimed (l r : SyntaxKind) : Side :=
  if l = SyntaxKind.Identifier ∧ r ≠ SyntaxKind.Identifier then Side.left
  else if r = SyntaxKind.Identifier ∧ l ≠ SyntaxKind.Identifier then Side.right
  else if l = SyntaxKind.Dot ∧ r ≠ SyntaxKind.Dot then Side.left
  else if r = SyntaxKind.Dot ∧ l ≠ SyntaxKind.Dot then Side.right
  else if isWsOrComment r ∧ ¬ (isWsOrComment l) then Side.left
  else if isWsOrComment l ∧ ¬ (isWsOrComment r) then Side.right
  else Side.left

/-- The amended precedence: as claimed for identifier and dot, but in
the whitespace/comment step the left side is inspected first, so when
both sides are whitespace-or-comment the right token wins. -/
def specPickAmended (l r : SyntaxKind) : Side :=
  if l = SyntaxKind.Identifier ∧ r ≠ SyntaxKind.Identifier then Side.left
  else if r = SyntaxKind.Identifier ∧ l ≠ SyntaxKind.Identifier then Side.right
  else if l = SyntaxKind.Dot ∧ r ≠ SyntaxKind.Dot then Side.left
  else if r = SyntaxKind.Dot ∧ l ≠ SyntaxKind.Dot then Side.right
  else if isWsOrComment l then Side.right
  else if isWsOrComment r then Side.left
  else Side.left

/-- A syntax token of the compiled tree: kind plus text range
`[start, start + length)`. -/
structure SyntaxToken where
  kind : SyntaxKind
  start : Nat
  length : Nat
deriving DecidableEq, Repr

/-- End offset of a token's text range. -/
def tokenEnd (t : SyntaxToken) : Nat := t.start + t.length

/-- rowan's `token_at_offset` yields a token iff its range touches the
offset (boundary inclusive on both ends). -/
def touches (o : Nat) (t : SyntaxToken) : Bool :=
  decide (t.start ≤ o) && decide (o ≤ tokenEnd t)

/-- `node.token_at_offset(o)` (src/tools/lsp/main.rs:357): the tokens of
the tree, in order, whose range touches `o` (zero, one or two of them
when the tokens tile the range). -/
def tokensAtOffset (ts : List SyntaxToken) (o : Nat) : List SyntaxToken :=
  ts.filter (touches o)

/-- One document as `token_descr` consumes it: the cached
`newline_offsets` entry for its URI, the compiled root node's text
range, and the root node's token list in text order. -/
structure Document where
  lineOffsets : List Nat
  rangeStart : Nat
  rangeEnd : Nat
  tokens : List SyntaxToken

/-- The two-token arm of `token_descr`: keep the token `pickSide`
selects from the kinds. -/
def pickToken (l r : SyntaxToken) : SyntaxToken :=
  match pickSide l.kind r.kind with
  | Side.left => l
  | Side.right => r

/-- The `let token = match (taf.next(), taf.next()) {..}` of
`token_descr` (src/tools/lsp/main.rs:358-375): none when no token
touches the offset, the single touching token, or the tie-break winner
of the two boundary tokens. -/
def resolveAt (ts : List SyntaxToken) (o : Nat) : Option SyntaxToken :=
  match tokensAtOffset ts o with
  | [] => none
  | [t] => some t
  | l :: r :: _ => some (pickToken l r)

/-- `token_descr` (src/tools/lsp/main.rs:344-377): raw offset from the
line table plus the column (wrapping `u32` addition), bail out unless
the offset is inside the compiled root's half-open range, then resolve
among the tokens at the offset with the tie-break; the resolved token is
returned together with the raw offset. -/
def token_descr (doc : Document) (line character : Nat) : Option (SyntaxToken × Nat) :=
  match doc.lineOffsets.get? line with
  | none => none
  | some lo =>
    let o := (lo + character) % U32MOD
    if doc.rangeStart ≤ o ∧ o < doc.rangeEnd then
      (resolveAt doc.tokens o).map (fun t => (t, o))
    else none

/-- Executable well-formedness of a compiled root: its tokens are
non-empty and tile the range `[a, b)` contiguously. -/
def tokensCover : Nat → Nat → List SyntaxToken → Bool
  | a, b, [] => decide (a = b)
  | a, b, t :: ts =>
    decide (t.start = a) && decide (0 < t.length) && tokensCover (tokenEnd t) b ts

theorem tokensAtOffset_ne_nil (ts : List SyntaxToken) (a b o : Nat)
    (hc : tokensCover a b ts = true) (hao : a ≤ o) (hob : o < b) :
    tokensAtOffset ts o ≠ [] := by
  induction ts generalizing a with
  | nil =>
    simp only [tokensCover, decide_eq_true_eq] at hc
    omega
  | cons t ts ih =>
    simp only [tokensCover, Bool.and_eq_true, decide_eq_true_eq] at hc
    obtain ⟨⟨hstart, hlen⟩, hrest⟩ := hc
    by_cases ho : o ≤ tokenEnd t
    · have ht : touches o t = true := by
        simp [touches, hstart, hao, ho]
      simp only [tokensAtOffset, List.filter_cons, ht]
      simp
    · have ht : touches o t = false := by
        simp only [touches, Bool.and_eq_false_iff, decide_eq_false_iff_not]
        right
        omega
      simp only [tokensAtOffset, List.filter_cons, ht]
      simp only [Bool.false_eq_true, if_false]
      exact ih (tokenEnd t) hrest (by omega)

theorem mem_tokensAtOffset (ts : List SyntaxToken) (o : Nat) (t : SyntaxToken)
    (h : t ∈ tokensAtOffset ts o) : touches o t = true :=
  (List.mem_filter.mp h).2

/-! ## Diagnostics translation and publication -/

/-- A filesystem path as the diagnostics code inspects it: only its
absoluteness and its identity matter to `reload_document`. -/
structure FsPath where
  absolute : Bool
  name : String
deriving DecidableEq, Repr

/-- `sixtyfps_compilerlib::diagnostics::DiagnosticLevel`. -/
inductive DiagnosticLevel where
  | Error
  | Warning
deriving DecidableEq, Repr

/-- `lsp_types::DiagnosticSeverity` (the two values this server emits). -/
inductive LspSeverity where
  | Error
  | Warning
deriving DecidableEq, Repr

/-- `lsp_types::Position` (line and character are `u32`). -/
structure LspPosition where
  line : Nat
  character : Nat
deriving DecidableEq, Repr

/-- `lsp_types::Range`; the source's `end` field is `endPos` here. -/
structure LspRange where
  start : LspPosition
  endPos : LspPosition
deriving DecidableEq, Repr

/-- One compiler diagnostic as `reload_document` consumes it: recorded
source file, severity, 1-based `line_column()` span, message. -/
structure SourceDiag where
  file : FsPath
  level : DiagnosticLevel
  line : Nat
  column : Nat
  message : String
deriving DecidableEq, Repr

/-- The compile's result that `reload_document` reads back: every file
transitively loaded, and the full diagnostic batch. -/
structure BuildDiagnostics where
  all_loaded_files : List FsPath
  diags : List SourceDiag
deriving Repr

/-- `to_lsp_diag_level` (src/tools/lsp/main.rs:317-324). -/
def to_lsp_diag_level (level : DiagnosticLevel) : LspSeverity :=
  match level with
  | DiagnosticLevel.Error => LspSeverity.Error
  | DiagnosticLevel.Warning => LspSeverity.Warning

/-- `to_range` (src/tools/lsp/main.rs:338-341): the 1-based `usize` span
is cast `as u32` (truncating) and `saturating_sub(1)` applied to each
axis; the result is the zero-width range at that position. -/
def to_range (span : Nat × Nat) : LspRange :=
  let pos : LspPosition := ⟨span.1 % U32MOD - 1, span.2 % U32MOD - 1⟩
  ⟨pos, pos⟩

/-- The protocol-shaped diagnostic `to_lsp_diag` builds
(src/tools/lsp/main.rs:326-336). -/
structure LspDiag where
  range : LspRange
  severity : LspSeverity
  message : String
deriving DecidableEq, Repr

/-- `to_lsp_diag` (src/tools/lsp/main.rs:326-336). -/
def to_lsp_diag (d : SourceDiag) : LspDiag :=
  ⟨to_range (d.line, d.column), to_lsp_diag_level d.level, d.message⟩

/-- The `HashMap<Url, Vec<Diagnostic>>` of `reload_document`, as an
association list keyed by the diagnostic's file (URIs come from
`Url::from_file_path`, injective on the paths involved). -/
abbrev DiagMap := List (FsPath × List LspDiag)

/-- `HashMap::insert` while collecting the initial empty entries
(src/tools/lsp/main.rs:291-297): overwrite an existing key or append. -/
def mapInsertEmpty (m : DiagMap) (k : FsPath) : DiagMap :=
  if m.any (fun e => decide (e.1 = k)) then
    m.map (fun e => if e.1 = k then (k, ([] : List LspDiag)) else e)
  else m ++ [(k, [])]

/-- The initial batch: one empty entry per file of
`once(&path).chain(diag.all_loaded_files.iter())`
(src/tools/lsp/main.rs:291-297). -/
def initEntries (ps : List FsPath) : DiagMap :=
  ps.foldl (fun m p => mapInsertEmpty m p) []

/-- `lsp_diags.entry(uri).or_default().push(d)`
(src/tools/lsp/main.rs:304): append to the existing entry's list, or
insert a fresh singleton entry. -/
def pushDiag (m : DiagMap) (k : FsPath) (d : LspDiag) : DiagMap :=
  if m.any (fun e => decide (e.1 = k)) then
    m.map (fun e => if e.1 = k then (e.1, e.2 ++ [d]) else e)
  else m ++ [(k, [d])]

/-- The diagnostics-publication part of `reload_document`
(src/tools/lsp/main.rs:290-312): start from an empty entry for the
triggering file and every transitively loaded file, then fold over the
batch, skipping every diagnostic whose recorded source path is
relative and pushing the translation of the rest under its file. -/
def reload_publish (trigger : FsPath) (diag : BuildDiagnostics) : DiagMap :=
  diag.diags.foldl
    (fun m d => if d.file.absolute then pushDiag m d.file (to_lsp_diag d) else m)
    (initEntries (trigger :: diag.all_loaded_files))

/-- Whether the published batch holds an entry (possibly with an empty
list) for the given file. -/
def hasEntry (m : DiagMap) (p : FsPath) : Bool :=
  m.any (fun e => decide (e.1 = p))

theorem hasEntry_mapInsertEmpty (m : DiagMap) (k p : FsPath)
    (h : hasEntry m p = true) : hasEntry (mapInsertEmpty m k) p = true := by
  simp only [hasEntry, List.any_eq_true, decide_eq_true_eq] at h ⊢
  obtain ⟨e, he, hep⟩ := h
  simp only [mapInsertEmpty]
  split
  · refine ⟨if e.1 = k then (k, []) else e, List.mem_map.mpr ⟨e, he, rfl⟩, ?_⟩
    split
    · rename_i hek
      rw [← hep, hek]
    · exact hep
  · exact ⟨e, List.mem_append_left _ he, hep⟩

theorem hasEntry_mapInsertEmpty_self (m : DiagMap) (k : FsPath) :
    hasEntry (mapInsertEmpty m k) k = true := by
  simp only [hasEntry, List.any_eq_true, decide_eq_true_eq, mapInsertEmpty]
  split
  · rename_i hany
    obtain ⟨e, he, hek⟩ := hany
    refine ⟨if e.1 = k then (k, []) else e, List.mem_map.mpr ⟨e, he, rfl⟩, ?_⟩
    rw [if_pos hek]
  · exact ⟨(k, []), List.mem_append_right _ (List.mem_singleton.mpr rfl), rfl⟩

theorem hasEntry_pushDiag (m : DiagMap) (k p : FsPath) (d : LspDiag)
    (h : hasEntry m p = true) : hasEntry (pushDiag m k d) p = true := by
  simp only [hasEntry, List.any_eq_true, decide_eq_true_eq] at h ⊢
  obtain ⟨e, he, hep⟩ := h
  simp only [pushDiag]
  split
  · refine ⟨if e.1 = k then (e.1, e.2 ++ [d]) else e, List.mem_map.mpr ⟨e, he, rfl⟩, ?_⟩
    split <;> exact hep
  · exact ⟨e, List.mem_append_left _ he, hep⟩

theorem hasEntry_initEntries (ps : List FsPath) (p : FsPath) (h : p ∈ ps) :
    hasEntry (initEntries ps) p = true := by
  have general : ∀ (qs : List FsPath) (m : DiagMap),
      (hasEntry m p = true ∨ p ∈ qs) → hasEntry (qs.foldl (fun m q => mapInsertEmpty m q) m) p = true := by
    intro qs
    induction qs with
    | nil =>
      intro m hm
      rcases hm with hm | hm
      · exact hm
      · cases hm
    | cons q qs ih =>
      intro m hm
      simp only [List.foldl_cons]
      rcases hm with hm | hm
      · exact ih _ (Or.inl (hasEntry_mapInsertEmpty m q p hm))
      · rcases List.mem_cons.mp hm with hq | hq
        · exact ih _ (Or.inl (hq ▸ hasEntry_mapInsertEmpty_self m q))
        · exact ih _ (Or.inr hq)
  exact general ps [] (Or.inr h)

theorem hasEntry_fold_diags (ds : List SourceDiag) (m : DiagMap) (p : FsPath)
    (h : hasEntry m p = true) :
    hasEntry (ds.foldl
      (fun m d => if d.file.absolute then pushDiag m d.file (to_lsp_diag d) else m) m) p = true := by
  induction ds generalizing m with
  | nil => exact h
  | cons d ds ih =>
    simp only [List.foldl_cons]
    split
    · exact ih _ (hasEntry_pushDiag m d.file p (to_lsp_diag d) h)
    · exact ih _ h

theorem fold_diags_filter_absolute (ds : List SourceDiag) (m : DiagMap) :
    ds.foldl
      (fun m d => if d.file.absolute then pushDiag m d.file (to_lsp_diag d) else m) m
    = (ds.filter (fun d => d.file.absolute)).foldl
      (fun m d => if d.file.absolute then pushDiag m d.file (to_lsp_diag d) else m) m := by
  induction ds generalizing m with
  | nil => rfl
  | cons d ds ih =>
    by_cases h : d.file.absolute = true
    · rw [show List.filter (fun d => d.file.absolute) (d :: ds)
            = d :: List.filter (fun d => d.file.absolute) ds from by
          simp [List.filter_cons, h]]
      rw [List.foldl_cons, List.foldl_cons, if_pos h]
      exact ih _
    · rw [show List.filter (fun d => d.file.absolute) (d :: ds)
            = List.filter (fun d => d.file.absolute) ds from by
          simp [List.filter_cons, h]]
      rw [List.foldl_cons, if_neg h]
      exact ih m

/-! ## Notification handling: didOpen/didChange document lifecycle -/

/-- The per-URI document store as `reload_document` updates it (the
`newline_offsets` map and the compiler's per-file content): an
association list from URI to the full text last handed to the compile,
overwriting on re-insert. -/
def set_document : List (String × String) → String → String → List (String × String)
  | [], uri, text => [(uri, text)]
  | e :: es, uri, text =>
    if e.1 = uri then (uri, text) :: es else e :: set_document es uri text

/-- Lookup of the stored content for a URI. -/
def get_document : List (String × String) → String → Option String
  | [], _ => none
  | e :: es, uri => if e.1 = uri then some e.2 else get_document es uri

/-- The `DidChangeTextDocument` arm of `handle_notification`
(src/tools/lsp/main.rs:223-231): `params.content_changes.pop()` takes
the vector's last entry and `.unwrap()` panics when the list is empty
(modelled as the `none` outcome); the last entry's full text is then
applied by the reload path. -/
def handle_did_change (cache : List (String × String)) (uri : String)
    (contentChanges : List String) : Option (List (String × String)) :=
  match contentChanges.getLast? with
  | none => none
  | some text => some (set_document cache uri text)

theorem get_set_document (cache : List (String × String)) (uri text : String) :
    get_document (set_document cache uri text) uri = some text := by
  induction cache with
  | nil => simp [set_document, get_document]
  | cons e es ih =>
    by_cases h : e.1 = uri
    · simp [set_document, get_document, h]
    · simp [set_document, get_document, h, ih]

/-! ## The execute-command path of the request dispatcher -/

/-- A JSON value as the command handler inspects it. -/
inductive Json where
  | str (s : String)
  | num (n : Int)
  | bool (b : Bool)
  | null
deriving DecidableEq, Repr

/-- The argument validation of `show_preview_command`
(src/tools/lsp/main.rs:244-273): `params.get(0).ok_or_else(e)?` errors
when the first positional argument is missing, and the
`if let Value::String(s)` else-branch errors when it is not a string;
every later step (canonicalization fallback, component lookup with
`unwrap_or(false)`, enqueueing the preview instruction) succeeds, so a
string first argument yields `Ok(())`. -/
def show_preview_command (params : List Json) : Except String Unit :=
  match params.get? 0 with
  | none => Except.error "InvalidParameter"
  | some (Json.str _) => Except.ok ()
  | some _ => Except.error "InvalidParameter"

/-- Invalid positional arguments for the preview command: first argument
missing or not a string. -/
def invalid_show_preview_args (params : List Json) : Bool :=
  match params.get? 0 with
  | some (Json.str _) => false
  | _ => true

/-- An inbound `workspace/executeCommand` request. -/
structure ExecuteCommandRequest where
  id : Nat
  command : String
  arguments : List Json
deriving DecidableEq, Repr

/-- The `ExecuteCommand` branch of `handle_request`
(src/tools/lsp/main.rs:182-192): for the recognized command name the
handler runs `show_preview_command(..)?` — the `?` propagates an
argument error out of `handle_request` *before* the
`Response::new_ok(id, None)` send is reached; any other command name
falls through to the null-success response.  Result: the responses sent
for this request (id, null payload), and the `Result` of
`handle_request`. -/
def handle_execute_command (req : ExecuteCommandRequest) :
    List (Nat × Option Json) × Except String Unit :=
  if req.command = "showPreview" then
    match show_preview_command req.arguments with
    | Except.error e => ([], Except.error e)
    | Except.ok _ => ([(req.id, none)], Except.ok ())
  else ([(req.id, none)], Except.ok ())

/-- The message loop of `main_loop` (src/tools/lsp/main.rs:117-130)
restricted to execute-command requests: each message is handled in
turn, and `handle_request(..)?` propagates a handler error, ending the
loop (and with it `run_lsp_server`) without processing the remaining
messages.  Result: all responses sent, and the loop's `Result`. -/
def main_loop_exec : List ExecuteCommandRequest → List (Nat × Option Json) × Except String Unit
  | [] => ([], Except.ok ())
  | req :: rest =>
    match handle_execute_command req with
    | (sent, Except.error e) => (sent, Except.error e)
    | (sent, Except.ok _) =>
      let t := main_loop_exec rest
      (sent ++ t.1, t.2)

theorem resolveAt_isSome (ts : List SyntaxToken) (o : Nat)
    (h : tokensAtOffset ts o ≠ []) : (resolveAt ts o).isSome = true := by
  rw [resolveAt]
  cases hfil : tokensAtOffset ts o with
  | nil => exact absurd hfil h
  | cons a tail => cases tail <;> rfl

theorem resolveAt_mem (ts : List SyntaxToken) (o : Nat) (t : SyntaxToken)
    (h : resolveAt ts o = some t) : t ∈ tokensAtOffset ts o := by
  rw [resolveAt] at h
  cases hfil : tokensAtOffset ts o with
  | nil => rw [hfil] at h; cases h
  | cons a tail =>
    rw [hfil] at h
    cases tail with
    | nil =>
      injection h with h2
      rw [← h2]
      exact List.mem_cons_self a []
    | cons b tail2 =>
      injection h with h2
      rw [← h2]
      cases hps : pickSide a.kind b.kind
      · simp only [pickToken, hps]
        exact List.mem_cons_self a _
      · simp only [pickToken, hps]
        exact List.mem_cons_of_mem a (List.mem_cons_self b _)

/-! ## Claim theorems -/

/-- The concrete document of the C1 loop counterexample's second
request: a well-formed preview invocation. -/
def c1goodReq : ExecuteCommandRequest := ⟨2, "showPreview", [Json.str "file.60"]⟩

/-- The C1 counterexample's first request: `showPreview` with no
positional arguments. -/
def c1badReq : ExecuteCommandRequest := ⟨1, "showPreview", []⟩

/-- C1, counterexample.  The claim says the dispatcher still sends
exactly one null-success response to a recognized `showPreview` request
with invalid positional arguments and then keeps processing subsequent
messages.  In the code, `show_preview_command(..)?` propagates the
`InvalidParameter` error out of `handle_request` before the response
send is reached, so on the request with empty arguments *no* response
at all is sent (in particular none with id 1) and the following
well-formed request is never processed: the loop ends with the error. -/
theorem C1_counterexample :
    main_loop_exec [c1badReq, c1goodReq] = ([], Except.error "InvalidParameter")
    ∧ ((1, (none : Option Json)) ∉ (main_loop_exec [c1badReq, c1goodReq]).1) :=
  ⟨rfl, by decide⟩

/-- C1, amended: for every execute-command request whose command name is
`showPreview` but whose positional arguments are invalid (first argument
missing or not a string), the command handler aborts and the dispatcher
sends *no* response to that request; the error propagates out of the
message loop, which terminates without processing any subsequent
message. -/
theorem C1_invalid_preview_args_kill_loop (i : Nat) (args : List Json)
    (rest : List ExecuteCommandRequest)
    (h : invalid_show_preview_args args = true) :
    main_loop_exec (⟨i, "showPreview", args⟩ :: rest)
      = ([], Except.error "InvalidParameter") := by
  have hcmd : show_preview_command args = Except.error "InvalidParameter" := by
    rw [show_preview_command]
    rw [invalid_show_preview_args] at h
    cases hg : args.get? 0 with
    | none => rfl
    | some v =>
      rw [hg] at h
      cases v with
      | str s => cases h
      | num n => rfl
      | bool b => rfl
      | null => rfl
  simp [main_loop_exec, handle_execute_command, hcmd]

/-- C1 witness: the amended behavior at a concrete invalid request. -/
theorem C1_witness :
    invalid_show_preview_args [] = true
    ∧ main_loop_exec [⟨7, "showPreview", []⟩]
        = ([], Except.error "InvalidParameter") :=
  ⟨by decide, C1_invalid_preview_args_kill_loop 7 [] [] (by decide)⟩

/-- The text `"A { }\n"` of the C2 scenario (braces written via
`Char.ofNat`: 123 is the opening brace, 125 the closing one). -/
def c2text : List Char := ['A', ' ', Char.ofNat 123, ' ', Char.ofNat 125, '\n']

/-- The compiled document for `c2text` as `token_descr` sees it: the
cached line-offset table, the root's range `[0, 6)`, and the token
stream identifier `A`, whitespace, opening brace, whitespace, closing
brace, newline-whitespace. -/
def c2doc : Document :=
  ⟨newline_offsets_from_content c2text, 0, 6,
    [⟨SyntaxKind.Identifier, 0, 1⟩, ⟨SyntaxKind.Whitespace, 1, 1⟩,
      ⟨SyntaxKind.LBrace, 2, 1⟩, ⟨SyntaxKind.Whitespace, 3, 1⟩,
      ⟨SyntaxKind.RBrace, 4, 1⟩, ⟨SyntaxKind.Whitespace, 5, 1⟩]⟩

/-- C2, counterexample.  For the six-character text `"A { }\n"` the
line-offset table is not `[0]`: `split('\n')` yields the line `"A { }"`
and a trailing empty line, so the table has two entries. -/
theorem C2_counterexample :
    newline_offsets_from_content c2text ≠ [0] := by decide

/-- C2, amended: for the text `"A { }\n"` the computed line-offset table
equals `[0, 6]` (one entry per line, the trailing empty line included);
resolving position (line 0, column 2) yields raw offset 2 and the
opening-brace token, whose text range `[2, 3)` covers index 2. -/
theorem C2_scenario :
    newline_offsets_from_content c2text = [0, 6]
    ∧ token_descr c2doc 0 2 = some (⟨SyntaxKind.LBrace, 2, 1⟩, 2)
    ∧ touches 2 ⟨SyntaxKind.LBrace, 2, 1⟩ = true := by decide

/-- C3, counterexample.  The claim quantifies over *every* input text,
but the offsets are accumulated in wrapping `u32` arithmetic: for the
text of 2^32 - 1 letters `a` followed by one newline, the second line's
offset wraps to 0 and the table `[0, 0]` is not strictly increasing. -/
def c3text : List Char := List.replicate 4294967295 'a' ++ ['\n']

theorem C3_counterexample :
    ¬ List.Chain' (· < ·) (newline_offsets_from_content c3text) := by
  have hsplit : splitOnNl c3text = [List.replicate 4294967295 'a', []] :=
    splitOnNl_replicate_concat 4294967295
  have h : newline_offsets_from_content c3text = [0, 0] := by
    rw [newline_offsets_from_content, hsplit, newlineOffsetsAux_cons, newlineOffsetsAux_cons]
    simp only [List.length_replicate, newlineOffsetsAux]
    norm_num [U32MOD]
  rw [h]
  intro hchain
  exact absurd (List.chain'_cons.mp hchain).1 (lt_irrefl 0)

/-- C3, amended: for every input text of fewer than 2^32 characters, the
computed line-offset table has exactly as many entries as the text has
lines (a trailing empty line after a final newline counting as its own
entry), its entries are strictly increasing, and its first entry is 0. -/
theorem C3_line_offset_table (content : List Char) (hb : content.length < U32MOD) :
    (newline_offsets_from_content content).length = countLines content
    ∧ List.Chain' (· < ·) (newline_offsets_from_content content)
    ∧ (newline_offsets_from_content content).head? = some 0 :=
  newline_offsets_shape content hb

/-- C3 witness: the amended claim at the concrete text `"a\nb"`. -/
theorem C3_witness :
    (newline_offsets_from_content ['a', '\n', 'b']).length = countLines ['a', '\n', 'b']
    ∧ List.Chain' (· < ·) (newline_offsets_from_content ['a', '\n', 'b'])
    ∧ (newline_offsets_from_content ['a', '\n', 'b']).head? = some 0 :=
  C3_line_offset_table ['a', '\n', 'b'] (by decide)

/-- The document of the C4 counterexample: two spaces of whitespace
followed by a three-character comment. -/
def c4doc : Document :=
  ⟨[0], 0, 5, [⟨SyntaxKind.Whitespace, 0, 2⟩, ⟨SyntaxKind.Comment, 2, 3⟩]⟩

/-- C4, counterexample.  At the boundary between a whitespace token (on
the left) and a comment token (on the right), neither side is
"not whitespace and not a comment", so the claimed precedence falls
through to its default and selects the left (whitespace) token; the
code's match arm `(Whitespace, _) => r` selects the right (comment)
token instead. -/
theorem C4_counterexample :
    token_descr c4doc 0 2 = some (⟨SyntaxKind.Comment, 2, 3⟩, 2)
    ∧ specPickClaimed SyntaxKind.Whitespace SyntaxKind.Comment = Side.left := by decide

/-- C4, amended: at a boundary of exactly two touching tokens the
resolver prefers an identifier over any other kind (either side); else a
dot over any other kind; else, if the left token is whitespace or a
comment the right token wins (hence when both sides are
whitespace-or-comment the right side wins), else if the right token is
whitespace or a comment the left token wins; else the left token.  The
code's tie-break agrees with this ordered precedence on every pair of
kinds. -/
theorem C4_tie_break_precedence (l r : SyntaxKind) :
    pickSide l r = specPickAmended l r := by
  cases l <;> cases r <;> decide

/-- C5: with a valid line index and the document's tokens tiling its
compiled range, `token_descr` returns a token iff the raw offset
`line_offsets[line] + column` (wrapping `u32` addition) lies inside the
compiled half-open range; and any returned token is returned with that
raw offset and its text range touches the raw offset (the resolver may
pick the left token of a boundary, whose range ends exactly at the
offset, so "covers" is range-touching, as in the spec's step 3). -/
theorem C5_resolution_window (doc : Document) (line character lo : Nat)
    (hline : doc.lineOffsets.get? line = some lo)
    (hcover : tokensCover doc.rangeStart doc.rangeEnd doc.tokens = true) :
    ((token_descr doc line character).isSome = true
      ↔ (doc.rangeStart ≤ (lo + character) % U32MOD
          ∧ (lo + character) % U32MOD < doc.rangeEnd))
    ∧ (∀ t o, token_descr doc line character = some (t, o) →
        o = (lo + character) % U32MOD
        ∧ touches ((lo + character) % U32MOD) t = true) := by
  have hteq : token_descr doc line character
      = (if doc.rangeStart ≤ (lo + character) % U32MOD
            ∧ (lo + character) % U32MOD < doc.rangeEnd then
          (resolveAt doc.tokens ((lo + character) % U32MOD)).map
            (fun t => (t, (lo + character) % U32MOD))
        else none) := by
    simp only [token_descr, hline]
  by_cases hc : doc.rangeStart ≤ (lo + character) % U32MOD
      ∧ (lo + character) % U32MOD < doc.rangeEnd
  · rw [if_pos hc] at hteq
    have hne : tokensAtOffset doc.tokens ((lo + character) % U32MOD) ≠ [] :=
      tokensAtOffset_ne_nil doc.tokens doc.rangeStart doc.rangeEnd _ hcover hc.1 hc.2
    constructor
    · constructor
      · intro _; exact hc
      · intro _
        have hs := resolveAt_isSome doc.tokens ((lo + character) % U32MOD) hne
        rw [hteq]
        cases hres : resolveAt doc.tokens ((lo + character) % U32MOD) with
        | none => rw [hres] at hs; simp at hs
        | some u => rfl
    · intro t o hsome
      rw [hteq] at hsome
      cases hres : resolveAt doc.tokens ((lo + character) % U32MOD) with
      | none => rw [hres] at hsome; cases hsome
      | some u =>
        rw [hres] at hsome
        injection hsome with hpair
        cases hpair
        refine ⟨rfl, ?_⟩
        exact mem_tokensAtOffset _ _ _ (resolveAt_mem _ _ _ hres)
  · rw [if_neg hc] at hteq
    constructor
    · constructor
      · intro hsome
        rw [hteq] at hsome
        simp at hsome
      · intro hin
        exact absurd hin hc
    · intro t o hsome
      rw [hteq] at hsome
      cases hsome

/-- C5 witness: the resolution window at the concrete `c2doc`, line 0,
column 4 (raw offset 4, the closing brace). -/
theorem C5_witness :
    ((token_descr c2doc 0 4).isSome = true
      ↔ (c2doc.rangeStart ≤ (0 + 4) % U32MOD ∧ (0 + 4) % U32MOD < c2doc.rangeEnd)) :=
  (C5_resolution_window c2doc 0 4 0 (by decide) (by decide)).1

/-- C6: after every reload, the published diagnostics batch contains an
entry — possibly with an empty diagnostic list — for every file
transitively loaded during that compile, including the file that
triggered the reload (`once(&path).chain(diag.all_loaded_files)` seeds
an empty entry per file, and pushing translated diagnostics never
removes a key). -/
theorem C6_publish_covers_loaded (trigger : FsPath) (diag : BuildDiagnostics) (p : FsPath)
    (h : p = trigger ∨ p ∈ diag.all_loaded_files) :
    hasEntry (reload_publish trigger diag) p = true := by
  rw [reload_publish]
  apply hasEntry_fold_diags
  apply hasEntry_initEntries
  rcases h with h | h
  · rw [h]
    exact List.mem_cons_self trigger _
  · exact List.mem_cons_of_mem trigger h

/-- The triggering file of the C6 witness scenario. -/
def c6trigger : FsPath := ⟨true, "main.60"⟩

/-- A transitively loaded file of the C6 witness scenario. -/
def c6loaded : FsPath := ⟨true, "import.60"⟩

/-- C6 witness: a compile that loaded one extra file and produced no
diagnostics still publishes an (empty) entry for that file. -/
theorem C6_witness :
    hasEntry (reload_publish c6trigger ⟨[c6loaded], []⟩) c6loaded = true :=
  C6_publish_covers_loaded c6trigger ⟨[c6loaded], []⟩ c6loaded (Or.inr (by decide))

/-- C7: a diagnostic whose recorded source path is relative is dropped
entirely — the published batch computed from the full diagnostic list is
the very batch computed after discarding every relative-path diagnostic,
so such a diagnostic is never translated nor sent, for any compile. -/
theorem C7_relative_diags_dropped (trigger : FsPath) (diag : BuildDiagnostics) :
    reload_publish trigger diag
      = reload_publish trigger
          ⟨diag.all_loaded_files, diag.diags.filter (fun d => d.file.absolute)⟩ := by
  simp only [reload_publish]
  exact fold_diags_filter_absolute diag.diags _

/-- C8, counterexample.  `line_column()` spans are `usize`; the claim
says the translation subtracts one (clamping at zero) from each axis for
*every* span, but the code first truncates with an `as u32` cast: for
the span (2^32, 1) the translated line is 0 while the claimed
subtract-one value 2^32 - 1 is nonzero. -/
theorem C8_counterexample :
    (to_range (4294967296, 1)).start.line = 0 ∧ (4294967296 - 1 : Nat) ≠ 0 :=
  ⟨rfl, by decide⟩

/-- C8, amended: the emitted range is always zero-width (start equals
end), and for every 1-based span whose coordinates are below 2^32 the
translated position subtracts one from each axis, clamping at zero
(inputs of 0 map to 0). -/
theorem C8_to_range_zero_width (line column : Nat) :
    (to_range (line, column)).start = (to_range (line, column)).endPos
    ∧ (line < U32MOD → column < U32MOD →
        (to_range (line, column)).start = ⟨line - 1, column - 1⟩) := by
  constructor
  · rfl
  · intro hl hc
    simp only [to_range]
    rw [Nat.mod_eq_of_lt hl, Nat.mod_eq_of_lt hc]

/-- C8 witness: the amended translation at the concrete span (1, 0):
zero-width, line 1 maps to 0 and the zero column stays clamped at 0. -/
theorem C8_witness :
    ((to_range (1, 0)).start = (to_range (1, 0)).endPos)
    ∧ (to_range (1, 0)).start = ⟨0, 0⟩ :=
  ⟨(C8_to_range_zero_width 1 0).1,
    (C8_to_range_zero_width 1 0).2 (by decide) (by decide)⟩

/-- C9: a change notification carrying the non-empty content-change
list `earlier ++ [lastText]` applies exactly the last entry's full text
(`Vec::pop` takes the final element), ignoring all earlier entries, and
the document then holds exactly that text. -/
theorem C9_last_change_wins (cache : List (String × String)) (uri : String)
    (earlier : List String) (lastText : String) :
    handle_did_change cache uri (earlier ++ [lastText])
        = some (set_document cache uri lastText)
    ∧ get_document (set_document cache uri lastText) uri = some lastText := by
  constructor
  · rw [handle_did_change, List.getLast?_concat]
  · exact get_set_document cache uri lastText

/-- C10: on a didChange notification with an *empty* content-change
list, `content_changes.pop().unwrap()` unwraps `None` and panics — the
handler has no defined result (modelled as `none`) — while for every
non-empty list it is total (returns an updated store). -/
theorem C10_empty_changes_panic (cache : List (String × String)) (uri : String) :
    handle_did_change cache uri [] = none
    ∧ ∀ (changes : List String), changes ≠ [] →
        (handle_did_change cache uri changes).isSome = true := by
  constructor
  · rfl
  · intro changes hne
    rw [handle_did_change]
    cases hlast : changes.getLast? with
    | none => exact absurd (List.getLast?_eq_none_iff.mp hlast) hne
    | some t => rfl

/-- C10 witness: the handler at the empty list and at a one-element
list. -/
theorem C10_witness :
    handle_did_change [] "file.60" [] = none
    ∧ (handle_did_change [] "file.60" ["text"]).isSome = true :=
  ⟨(C10_empty_changes_panic [] "file.60").1,
    (C10_empty_changes_panic [] "file.60").2 ["text"] (by decide)⟩
